import Mathlib

/-!
Verification of the persistent-collection cache layer of the l1x SDK
(`store/lookup_map`, `store/index_map`, `store/vec`, `store/lookup_set`,
`utils/cache_entry`), shallowly embedded over an explicit byte-oriented
key-value store.  Byte strings are `List Nat`; the external store is an
association list; serialization of keys and values is passed in as explicit
functions (borsh in the source).  Fatal conditions (`crate::panic`,
`crate::abort`) are modelled with `Except PanicErr`.
-/

set_option linter.unusedVariables false

/-- Raw byte strings as exchanged with the external key-value store. -/
abbrev Bytes := List Nat

/-- Dirtiness flag of a cache slot (`utils/cache_entry.rs`, `EntryState`). -/
inductive EntryState where
  | Modified
  | Cached
deriving DecidableEq, Repr

/-- A cache slot: an optional value plus its dirtiness state
(`utils/cache_entry.rs`, `CacheEntry`). -/
structure CacheEntry (T : Type) where
  value : Option T
  state : EntryState
deriving DecidableEq, Repr

/-- `CacheEntry::new_cached`. -/
def CacheEntry.new_cached {T : Type} (v : Option T) : CacheEntry T :=
  ⟨v, EntryState.Cached⟩

/-- `CacheEntry::new_modified`. -/
def CacheEntry.new_modified {T : Type} (v : Option T) : CacheEntry T :=
  ⟨v, EntryState.Modified⟩

/-- State effect of `CacheEntry::value_mut`: acquiring the mutable handle
unconditionally sets the state to `Modified`. -/
def CacheEntry.mark_modified {T : Type} (e : CacheEntry T) : CacheEntry T :=
  ⟨e.value, EntryState.Modified⟩

/-- `CacheEntry::replace`: returns the old value and the updated entry.  The
state becomes `Modified` when the new or the old value is present; otherwise
it is left unchanged. -/
def CacheEntry.replace {T : Type} (e : CacheEntry T) (v : Option T) :
    Option T × CacheEntry T :=
  (e.value, ⟨v, if v.isSome || e.value.isSome then EntryState.Modified else e.state⟩)

/-- `CacheEntry::replace_state`. -/
def CacheEntry.replace_state {T : Type} (e : CacheEntry T) (s : EntryState) :
    EntryState × CacheEntry T :=
  (e.state, ⟨e.value, s⟩)

/-- `CacheEntry::is_modified`. -/
def CacheEntry.is_modified {T : Type} (e : CacheEntry T) : Bool :=
  match e.state with
  | EntryState.Modified => true
  | EntryState.Cached => false

/-- The external key-value store (the mock in `lib.rs` is a `BTreeMap` from
byte keys to byte values), modelled as an association list. -/
abbrev Store := List (Bytes × Bytes)

/-- `storage_read`. -/
def storeRead (s : Store) (k : Bytes) : Option Bytes :=
  match s with
  | [] => none
  | (k', v) :: rest => if k' = k then some v else storeRead rest k

/-- `storage_write`. -/
def storeWrite (s : Store) (k v : Bytes) : Store :=
  match s with
  | [] => [(k, v)]
  | (k', v') :: rest =>
    if k' = k then (k, v) :: rest else (k', v') :: storeWrite rest k v

/-- `storage_remove`. -/
def storeRemove (s : Store) (k : Bytes) : Store :=
  match s with
  | [] => []
  | (k', v') :: rest =>
    if k' = k then storeRemove rest k else (k', v') :: storeRemove rest k

/-- One store operation issued by a flush. -/
inductive StoreOp where
  | write (key value : Bytes)
  | remove (key : Bytes)
deriving DecidableEq, Repr

/-- The key a store operation targets. -/
def StoreOp.key : StoreOp → Bytes
  | StoreOp.write k _ => k
  | StoreOp.remove k => k

/-- Apply one store operation. -/
def applyOp (s : Store) : StoreOp → Store
  | StoreOp.write k v => storeWrite s k v
  | StoreOp.remove k => storeRemove s k

/-- Apply a list of store operations left to right (the order flush issues
them in). -/
def applyOps (s : Store) (ops : List StoreOp) : Store :=
  ops.foldl applyOp s

/-- Lookup in a collection cache (`StableMap`); `none` models a key whose
`OnceCell` slot has never been initialized. -/
def cacheFind {K A : Type} [DecidableEq K] (c : List (K × A)) (k : K) : Option A :=
  match c with
  | [] => none
  | (k', a) :: rest => if k' = k then some a else cacheFind rest k

/-- Update-or-insert in a collection cache. -/
def cacheSet {K A : Type} [DecidableEq K] (c : List (K × A)) (k : K) (a : A) :
    List (K × A) :=
  match c with
  | [] => [(k, a)]
  | (k', a') :: rest =>
    if k' = k then (k, a) :: rest else (k', a') :: cacheSet rest k a

/-- Fatal conditions: `crate::panic` on deserialization failure or index out
of bounds, and `crate::abort`. -/
inductive PanicErr where
  | deserialization
  | indexOutOfBounds
  | abortCalled
deriving DecidableEq, Repr

/-- Little-endian 4-byte encoding of an index (`u32::to_le_bytes`). -/
def u32le (n : Nat) : Bytes :=
  [n % 256, n / 256 % 256, n / 65536 % 256, n / 16777216 % 256]

/-- Largest `u32` value; `push` fails when the length cannot be incremented
past it. -/
def u32Max : Nat := 4294967295

/-- `IndexMap` (`store/index_map.rs`): prefix plus cache from index to slot. -/
structure IndexMap (T : Type) where
  pfx : Bytes
  cache : List (Nat × CacheEntry T)
deriving DecidableEq, Repr

/-- `IndexMap::new`. -/
def IndexMap.new {T : Type} (p : Bytes) : IndexMap T :=
  ⟨p, []⟩

/-- `IndexMap::index_to_lookup_key`: prefix followed by the 4-byte
little-endian index. -/
def indexToLookupKey (p : Bytes) (i : Nat) : Bytes :=
  p ++ u32le i

/-- `IndexMap::set`: stages the optional value and marks the slot Modified
(via `value_mut` on an initialized slot, `new_modified` otherwise). -/
def IndexMap.set {T : Type} (m : IndexMap T) (i : Nat) (v : Option T) :
    IndexMap T :=
  match cacheFind m.cache i with
  | some _ => ⟨m.pfx, cacheSet m.cache i ⟨v, EntryState.Modified⟩⟩
  | none => ⟨m.pfx, cacheSet m.cache i (CacheEntry.new_modified v)⟩

/-- Read-through slot initialization shared by `IndexMap::get`,
`IndexMap::get_mut_inner`: on first touch the physical key is read from the
store and the slot starts `Cached`; a deserialization failure is fatal. -/
def IndexMap.load {T : Type} (deserT : Bytes → Option T) (s : Store)
    (m : IndexMap T) (i : Nat) : Except PanicErr (IndexMap T) :=
  match cacheFind m.cache i with
  | some _ => Except.ok m
  | none =>
    match storeRead s (indexToLookupKey m.pfx i) with
    | none => Except.ok ⟨m.pfx, cacheSet m.cache i (CacheEntry.new_cached none)⟩
    | some bytes =>
      match deserT bytes with
      | none => Except.error PanicErr.deserialization
      | some v =>
        Except.ok ⟨m.pfx, cacheSet m.cache i (CacheEntry.new_cached (some v))⟩

/-- `IndexMap::get`: lazy slot initialization, then the cached value. -/
def IndexMap.get {T : Type} (deserT : Bytes → Option T) (s : Store)
    (m : IndexMap T) (i : Nat) : Except PanicErr (Option T × IndexMap T) :=
  match IndexMap.load deserT s m i with
  | Except.error e => Except.error e
  | Except.ok m1 =>
    match cacheFind m1.cache i with
    | some e => Except.ok (e.value, m1)
    | none => Except.error PanicErr.abortCalled

/-- `IndexMap::get_mut`: lazy slot initialization, then
`entry.value_mut().as_mut()` — acquiring the mutable handle marks the slot
Modified. -/
def IndexMap.get_mut {T : Type} (deserT : Bytes → Option T) (s : Store)
    (m : IndexMap T) (i : Nat) : Except PanicErr (Option T × IndexMap T) :=
  match IndexMap.load deserT s m i with
  | Except.error e => Except.error e
  | Except.ok m1 =>
    match cacheFind m1.cache i with
    | some e =>
      Except.ok (e.value, ⟨m1.pfx, cacheSet m1.cache i e.mark_modified⟩)
    | none => Except.error PanicErr.abortCalled

/-- Store operations issued by `IndexMap::flush`, in cache iteration order:
one write or remove per Modified slot. -/
def flushOpsI {T : Type} (serT : T → Bytes) (p : Bytes) :
    List (Nat × CacheEntry T) → List StoreOp
  | [] => []
  | (i, e) :: rest =>
    if e.is_modified then
      (match e.value with
       | some v => StoreOp.write (indexToLookupKey p i) (serT v)
       | none => StoreOp.remove (indexToLookupKey p i)) :: flushOpsI serT p rest
    else flushOpsI serT p rest

/-- Cache after a flush: every Modified slot is demoted to Cached
(`replace_state(EntryState::Cached)`), values kept in memory. -/
def flushCache {K T : Type} : List (K × CacheEntry T) → List (K × CacheEntry T)
  | [] => []
  | (k, e) :: rest =>
    (k, if e.is_modified then ⟨e.value, EntryState.Cached⟩ else e) :: flushCache rest

/-- `IndexMap::flush`: returns the demoted cache and the store operations it
issued (the caller applies them with `applyOps`). -/
def IndexMap.flush {T : Type} (serT : T → Bytes) (m : IndexMap T) :
    IndexMap T × List StoreOp :=
  (⟨m.pfx, flushCache m.cache⟩, flushOpsI serT m.pfx m.cache)

/-- `Vector` (`store/vec/mod.rs`): a persisted length plus an `IndexMap`
segment. -/
structure Vector (T : Type) where
  len : Nat
  values : IndexMap T
deriving DecidableEq, Repr

/-- `Vector::new`. -/
def Vector.new {T : Type} (p : Bytes) : Vector T :=
  ⟨0, IndexMap.new p⟩

/-- `Vector::set`: fatal `IndexOutOfBounds` when `index >= len` (the bounds
check precedes any mutation); otherwise stages the write in the segment. -/
def Vector.set {T : Type} (v : Vector T) (i : Nat) (x : T) :
    Except PanicErr (Vector T) :=
  if v.len ≤ i then Except.error PanicErr.indexOutOfBounds
  else Except.ok ⟨v.len, v.values.set i (some x)⟩

/-- `Vector::push`: increments the length (fatal when it cannot grow past
`u32::MAX`), then sets the previous last index. -/
def Vector.push {T : Type} (v : Vector T) (x : T) : Except PanicErr (Vector T) :=
  if v.len = u32Max then Except.error PanicErr.indexOutOfBounds
  else Vector.set ⟨v.len + 1, v.values⟩ v.len x

/-- `Vector::get`: absence for `index >= len`, otherwise delegates to the
segment. -/
def Vector.get {T : Type} (deserT : Bytes → Option T) (s : Store)
    (v : Vector T) (i : Nat) : Except PanicErr (Option T × Vector T) :=
  if v.len ≤ i then Except.ok (none, v)
  else
    match IndexMap.get deserT s v.values i with
    | Except.error e => Except.error e
    | Except.ok (x, vals) => Except.ok (x, ⟨v.len, vals⟩)

/-- `Vector::get_mut`: absence for `index >= len`, otherwise delegates to the
segment's `get_mut`. -/
def Vector.get_mut {T : Type} (deserT : Bytes → Option T) (s : Store)
    (v : Vector T) (i : Nat) : Except PanicErr (Option T × Vector T) :=
  if v.len ≤ i then Except.ok (none, v)
  else
    match IndexMap.get_mut deserT s v.values i with
    | Except.error e => Except.error e
    | Except.ok (x, vals) => Except.ok (x, ⟨v.len, vals⟩)

/-- `Vector::pop`: absence when empty; otherwise reads the last element,
stages a tombstone (`set(last_idx, None)`) and decrements the length. -/
def Vector.pop {T : Type} (deserT : Bytes → Option T) (s : Store)
    (v : Vector T) : Except PanicErr (Option T × Vector T) :=
  if v.len = 0 then Except.ok (none, v)
  else
    match IndexMap.get deserT s v.values (v.len - 1) with
    | Except.error e => Except.error e
    | Except.ok (last_value, vals) =>
      Except.ok (last_value, ⟨v.len - 1, vals.set (v.len - 1) none⟩)

/-- `Vector::swap_remove`: fatal `IndexOutOfBounds` when `index >= len`;
at the last index it delegates to `pop` (aborting if `pop` yields nothing),
otherwise it reads the element at `index` (aborting when absent), pops the
last element, and stages it at `index`. -/
def Vector.swap_remove {T : Type} (deserT : Bytes → Option T) (s : Store)
    (v : Vector T) (i : Nat) : Except PanicErr (T × Vector T) :=
  if v.len ≤ i then Except.error PanicErr.indexOutOfBounds
  else if v.len - 1 = i then
    match Vector.pop deserT s v with
    | Except.error e => Except.error e
    | Except.ok (some x, v1) => Except.ok (x, v1)
    | Except.ok (none, _) => Except.error PanicErr.abortCalled
  else
    match IndexMap.get deserT s v.values i with
    | Except.error e => Except.error e
    | Except.ok (none, _) => Except.error PanicErr.abortCalled
    | Except.ok (some elem, vals) =>
      match Vector.pop deserT s ⟨v.len, vals⟩ with
      | Except.error e => Except.error e
      | Except.ok (last_elem, v1) =>
        Except.ok (elem, ⟨v1.len, v1.values.set i last_elem⟩)

/-- `Vector::flush`: delegates to the segment's flush. -/
def Vector.flush {T : Type} (serT : T → Bytes) (v : Vector T) :
    Vector T × List StoreOp :=
  let r := IndexMap.flush serT v.values
  (⟨v.len, r.fst⟩, r.snd)

/-- `impl Drop for Vector` (`store/vec/impls.rs`): teardown calls `flush`. -/
def Vector.teardown {T : Type} (serT : T → Bytes) (v : Vector T) :
    Vector T × List StoreOp :=
  Vector.flush serT v

/-- `LookupMap` (`store/lookup_map/mod.rs`): prefix plus cache from logical
key to slot.  The per-entry memoized physical key (`EntryAndHash.hash`) is
omitted: it always equals `to_key` of the prefix and the entry's key. -/
structure LookupMap (K V : Type) where
  pfx : Bytes
  cache : List (K × CacheEntry V)
deriving DecidableEq, Repr

/-- `to_key` in `store/lookup_map/mod.rs`: prefix followed by the serialized
logical key. -/
def to_key {K : Type} (serK : K → Bytes) (p : Bytes) (k : K) : Bytes :=
  p ++ serK k

/-- `LookupMap::new`. -/
def LookupMap.new {K V : Type} (p : Bytes) : LookupMap K V :=
  ⟨p, []⟩

/-- `LookupMap::set`: stages the optional value and marks the slot Modified
(via `value_mut` on an initialized slot, `new_modified` otherwise). -/
def LookupMap.set {K V : Type} [DecidableEq K] (m : LookupMap K V) (k : K)
    (v : Option V) : LookupMap K V :=
  match cacheFind m.cache k with
  | some _ => ⟨m.pfx, cacheSet m.cache k ⟨v, EntryState.Modified⟩⟩
  | none => ⟨m.pfx, cacheSet m.cache k (CacheEntry.new_modified v)⟩

/-- Read-through slot initialization shared by `LookupMap::get`,
`LookupMap::get_mut_inner` (`load_element` plus `get_or_init`). -/
def LookupMap.load {K V : Type} [DecidableEq K] (serK : K → Bytes)
    (deserV : Bytes → Option V) (s : Store) (m : LookupMap K V) (k : K) :
    Except PanicErr (LookupMap K V) :=
  match cacheFind m.cache k with
  | some _ => Except.ok m
  | none =>
    match storeRead s (to_key serK m.pfx k) with
    | none => Except.ok ⟨m.pfx, cacheSet m.cache k (CacheEntry.new_cached none)⟩
    | some bytes =>
      match deserV bytes with
      | none => Except.error PanicErr.deserialization
      | some v =>
        Except.ok ⟨m.pfx, cacheSet m.cache k (CacheEntry.new_cached (some v))⟩

/-- `LookupMap::get`: lazy slot initialization, then the cached value. -/
def LookupMap.get {K V : Type} [DecidableEq K] (serK : K → Bytes)
    (deserV : Bytes → Option V) (s : Store) (m : LookupMap K V) (k : K) :
    Except PanicErr (Option V × LookupMap K V) :=
  match LookupMap.load serK deserV s m k with
  | Except.error e => Except.error e
  | Except.ok m1 =>
    match cacheFind m1.cache k with
    | some e => Except.ok (e.value, m1)
    | none => Except.error PanicErr.abortCalled

/-- `LookupMap::insert`: `get_mut_inner(&k).replace(Some(v))`. -/
def LookupMap.insert {K V : Type} [DecidableEq K] (serK : K → Bytes)
    (deserV : Bytes → Option V) (s : Store) (m : LookupMap K V) (k : K)
    (v : V) : Except PanicErr (Option V × LookupMap K V) :=
  match LookupMap.load serK deserV s m k with
  | Except.error e => Except.error e
  | Except.ok m1 =>
    match cacheFind m1.cache k with
    | none => Except.error PanicErr.abortCalled
    | some e =>
      let r := e.replace (some v)
      Except.ok (r.fst, ⟨m1.pfx, cacheSet m1.cache k r.snd⟩)

/-- `LookupMap::remove`: `get_mut_inner(&k).replace(None)`. -/
def LookupMap.remove {K V : Type} [DecidableEq K] (serK : K → Bytes)
    (deserV : Bytes → Option V) (s : Store) (m : LookupMap K V) (k : K) :
    Except PanicErr (Option V × LookupMap K V) :=
  match LookupMap.load serK deserV s m k with
  | Except.error e => Except.error e
  | Except.ok m1 =>
    match cacheFind m1.cache k with
    | none => Except.error PanicErr.abortCalled
    | some e =>
      let r := e.replace none
      Except.ok (r.fst, ⟨m1.pfx, cacheSet m1.cache k r.snd⟩)

/-- Store operations issued by `LookupMap::flush`, in cache iteration order. -/
def flushOpsL {K V : Type} (serK : K → Bytes) (serV : V → Bytes) (p : Bytes) :
    List (K × CacheEntry V) → List StoreOp
  | [] => []
  | (k, e) :: rest =>
    if e.is_modified then
      (match e.value with
       | some v => StoreOp.write (to_key serK p k) (serV v)
       | none => StoreOp.remove (to_key serK p k)) :: flushOpsL serK serV p rest
    else flushOpsL serK serV p rest

/-- `LookupMap::flush`: returns the demoted cache and the store operations it
issued. -/
def LookupMap.flush {K V : Type} (serK : K → Bytes) (serV : V → Bytes)
    (m : LookupMap K V) : LookupMap K V × List StoreOp :=
  (⟨m.pfx, flushCache m.cache⟩, flushOpsL serK serV m.pfx m.cache)

/-- `LookupSet` (`store/lookup_set/mod.rs`): a `LookupMap` whose value type is
unit. -/
structure LookupSet (K : Type) where
  map : LookupMap K Unit
deriving Repr

/-- Borsh serialization of the unit value: zero bytes. -/
def unitSer : Unit → Bytes := fun _ => []

/-- `LookupSet::flush`: delegates to the internal map's flush. -/
def LookupSet.flush {K : Type} (serK : K → Bytes) (s : LookupSet K) :
    LookupSet K × List StoreOp :=
  let r := LookupMap.flush serK unitSer s.map
  (⟨r.fst⟩, r.snd)

/-- The cache-staged value of a vector slot (the logical value when the store
holds nothing under the vector's prefix). -/
def slotVal {T : Type} (v : Vector T) (i : Nat) : Option T :=
  match cacheFind v.values.cache i with
  | some e => e.value
  | none => none

/-- Whether a vector slot is initialized in cache with a present value. -/
def slotPresent {T : Type} (v : Vector T) (i : Nat) : Bool :=
  match cacheFind v.values.cache i with
  | some e => e.value.isSome
  | none => false

/-- Invariant of a vector built in-session over a store that holds nothing
under its prefix: every index below the length has a cached, present value. -/
def VecInv {T : Type} (v : Vector T) : Prop :=
  ∀ i, i < v.len → slotPresent v i = true

instance {T : Type} [DecidableEq T] (v : Vector T) : Decidable (VecInv v) := by
  unfold VecInv
  exact Nat.decidableBallLT v.len _

/-- One user-level vector operation, for stating properties of operation
sequences. -/
inductive VecOp (T : Type) where
  | pushOp (x : T)
  | popOp
  | swapRemoveOp (i : Nat)

/-- Run one vector operation, discarding returned elements. -/
def Vector.runOp {T : Type} (deserT : Bytes → Option T) (s : Store)
    (v : Vector T) : VecOp T → Except PanicErr (Vector T)
  | VecOp.pushOp x => v.push x
  | VecOp.popOp =>
    match Vector.pop deserT s v with
    | Except.error e => Except.error e
    | Except.ok r => Except.ok r.snd
  | VecOp.swapRemoveOp i =>
    match Vector.swap_remove deserT s v i with
    | Except.error e => Except.error e
    | Except.ok r => Except.ok r.snd

/-- Run a sequence of vector operations; any fatal error aborts the run. -/
def Vector.runOps {T : Type} (deserT : Bytes → Option T) (s : Store) :
    List (VecOp T) → Vector T → Except PanicErr (Vector T)
  | [], v => Except.ok v
  | op :: rest, v =>
    match Vector.runOp deserT s v op with
    | Except.error e => Except.error e
    | Except.ok v1 => Vector.runOps deserT s rest v1

/-- A store that holds no data under a vector prefix. -/
def storeEmptyUnder (s : Store) (p : Bytes) : Prop :=
  ∀ i, storeRead s (indexToLookupKey p i) = none

theorem cacheFind_cacheSet_self {K A : Type} [DecidableEq K]
    (c : List (K × A)) (k : K) (a : A) :
    cacheFind (cacheSet c k a) k = some a := by
  induction c with
  | nil => simp [cacheSet, cacheFind]
  | cons hd tl ih =>
    obtain ⟨k', a'⟩ := hd
    by_cases h : k' = k
    · simp [cacheSet, cacheFind, h]
    · simp [cacheSet, cacheFind, h, ih]

theorem cacheFind_cacheSet_ne {K A : Type} [DecidableEq K]
    (c : List (K × A)) (k k' : K) (a : A) (h : k' ≠ k) :
    cacheFind (cacheSet c k a) k' = cacheFind c k' := by
  induction c with
  | nil => simp [cacheSet, cacheFind, Ne.symm h]
  | cons hd tl ih =>
    obtain ⟨k0, a0⟩ := hd
    by_cases h0 : k0 = k
    · subst h0
      simp [cacheSet, cacheFind, Ne.symm h]
    · simp only [cacheSet, if_neg h0]
      by_cases h1 : k0 = k'
      · simp [cacheFind, h1]
      · simp [cacheFind, h1, ih]

theorem cacheSet_keys {K A : Type} [DecidableEq K]
    (c : List (K × A)) (k : K) (a : A) :
    (cacheSet c k a).map Prod.fst =
      if k ∈ c.map Prod.fst then c.map Prod.fst else c.map Prod.fst ++ [k] := by
  induction c with
  | nil => simp [cacheSet]
  | cons hd tl ih =>
    obtain ⟨k0, a0⟩ := hd
    by_cases h0 : k0 = k
    · subst h0
      simp [cacheSet]
    · by_cases h1 : k ∈ tl.map Prod.fst
      · simp [cacheSet, if_neg h0, ih, h1, Ne.symm h0]
      · simp [cacheSet, if_neg h0, ih, h1, Ne.symm h0]

theorem cacheSet_keys_nodup {K A : Type} [DecidableEq K]
    (c : List (K × A)) (k : K) (a : A) (h : (c.map Prod.fst).Nodup) :
    ((cacheSet c k a).map Prod.fst).Nodup := by
  rw [cacheSet_keys]
  by_cases h1 : k ∈ c.map Prod.fst
  · simpa [h1] using h
  · rw [if_neg h1]
    refine List.Nodup.append h (List.nodup_singleton k) ?_
    intro x hx hy
    simp only [List.mem_singleton] at hy
    subst hy
    exact h1 hx

theorem cacheFind_mem {K A : Type} [DecidableEq K]
    (c : List (K × A)) (k : K) (a : A) (h : cacheFind c k = some a) :
    (k, a) ∈ c := by
  induction c with
  | nil => simp [cacheFind] at h
  | cons hd tl ih =>
    obtain ⟨k0, a0⟩ := hd
    by_cases h0 : k0 = k
    · subst h0
      simp only [cacheFind, if_true, eq_self_iff_true] at h
      cases h
      exact List.mem_cons_self _ _
    · simp only [cacheFind, if_neg h0] at h
      exact List.mem_cons_of_mem _ (ih h)

theorem storeRead_storeWrite_self (s : Store) (k v : Bytes) :
    storeRead (storeWrite s k v) k = some v := by
  induction s with
  | nil => simp [storeWrite, storeRead]
  | cons hd tl ih =>
    obtain ⟨k0, v0⟩ := hd
    by_cases h0 : k0 = k
    · simp [storeWrite, storeRead, h0]
    · simp [storeWrite, storeRead, h0, ih]

theorem storeRead_storeWrite_ne (s : Store) (k k' v : Bytes) (h : k' ≠ k) :
    storeRead (storeWrite s k v) k' = storeRead s k' := by
  induction s with
  | nil => simp [storeWrite, storeRead, Ne.symm h]
  | cons hd tl ih =>
    obtain ⟨k0, v0⟩ := hd
    by_cases h0 : k0 = k
    · subst h0
      simp [storeWrite, storeRead, Ne.symm h]
    · simp only [storeWrite, if_neg h0]
      by_cases h1 : k0 = k'
      · simp [storeRead, h1]
      · simp [storeRead, h1, ih]

theorem storeRead_storeRemove_ne (s : Store) (k k' : Bytes) (h : k' ≠ k) :
    storeRead (storeRemove s k) k' = storeRead s k' := by
  induction s with
  | nil => simp [storeRemove, storeRead]
  | cons hd tl ih =>
    obtain ⟨k0, v0⟩ := hd
    by_cases h0 : k0 = k
    · subst h0
      simp [storeRemove, storeRead, Ne.symm h, ih]
    · simp only [storeRemove, if_neg h0]
      by_cases h1 : k0 = k'
      · simp [storeRead, h1]
      · simp [storeRead, h1, ih]

theorem storeRead_applyOp_ne (s : Store) (op : StoreOp) (k : Bytes)
    (h : op.key ≠ k) : storeRead (applyOp s op) k = storeRead s k := by
  cases op with
  | write k0 v0 =>
    exact storeRead_storeWrite_ne s k0 k v0 (fun hh => h (by simp [StoreOp.key, hh]))
  | remove k0 =>
    exact storeRead_storeRemove_ne s k0 k (fun hh => h (by simp [StoreOp.key, hh]))

theorem storeRead_applyOps_untouched (ops : List StoreOp) (s : Store) (k : Bytes)
    (h : ∀ op ∈ ops, op.key ≠ k) :
    storeRead (applyOps s ops) k = storeRead s k := by
  induction ops generalizing s with
  | nil => rfl
  | cons op rest ih =>
    have h1 : op.key ≠ k := h op (List.mem_cons_self _ _)
    have h2 : ∀ o ∈ rest, StoreOp.key o ≠ k := fun o ho => h o (List.mem_cons_of_mem _ ho)
    calc storeRead (applyOps s (op :: rest)) k
        = storeRead (applyOps (applyOp s op) rest) k := rfl
      _ = storeRead (applyOp s op) k := ih (applyOp s op) h2
      _ = storeRead s k := storeRead_applyOp_ne s op k h1

theorem flushCache_clean {K T : Type} (c : List (K × CacheEntry T)) :
    ∀ q ∈ flushCache c, q.2.is_modified = false := by
  induction c with
  | nil => simp [flushCache]
  | cons hd tl ih =>
    obtain ⟨k, e⟩ := hd
    intro q hq
    simp only [flushCache, List.mem_cons] at hq
    rcases hq with hq | hq
    · subst hq
      cases hE : e.is_modified
      · simp [hE]
      · simp [hE, CacheEntry.is_modified]
    · exact ih q hq

theorem flushOpsI_clean_nil {T : Type} (serT : T → Bytes) (p : Bytes)
    (c : List (Nat × CacheEntry T)) (h : ∀ q ∈ c, q.2.is_modified = false) :
    flushOpsI serT p c = [] := by
  induction c with
  | nil => rfl
  | cons hd tl ih =>
    obtain ⟨k, e⟩ := hd
    have he : e.is_modified = false := h (k, e) (List.mem_cons_self _ _)
    simp only [flushOpsI, he]
    exact ih (fun q hq => h q (List.mem_cons_of_mem _ hq))

theorem flushOpsL_clean_nil {K V : Type} (serK : K → Bytes) (serV : V → Bytes)
    (p : Bytes) (c : List (K × CacheEntry V))
    (h : ∀ q ∈ c, q.2.is_modified = false) :
    flushOpsL serK serV p c = [] := by
  induction c with
  | nil => rfl
  | cons hd tl ih =>
    obtain ⟨k, e⟩ := hd
    have he : e.is_modified = false := h (k, e) (List.mem_cons_self _ _)
    simp only [flushOpsL, he]
    exact ih (fun q hq => h q (List.mem_cons_of_mem _ hq))

theorem indexMap_second_flush_nil {T : Type} (serT : T → Bytes)
    (m : IndexMap T) :
    (IndexMap.flush serT (IndexMap.flush serT m).fst).snd = [] :=
  flushOpsI_clean_nil serT m.pfx (flushCache m.cache) (flushCache_clean m.cache)

theorem lookupMap_second_flush_nil {K V : Type} (serK : K → Bytes)
    (serV : V → Bytes) (m : LookupMap K V) :
    (LookupMap.flush serK serV (LookupMap.flush serK serV m).fst).snd = [] :=
  flushOpsL_clean_nil serK serV m.pfx (flushCache m.cache) (flushCache_clean m.cache)

/-- C2: two consecutive flushes with no intervening mutation issue zero store
writes and removes on the second call, for `LookupMap`, `IndexMap`, `Vector`
and `LookupSet`; the first flush demotes every slot of the cache to Cached
(`is_modified` is false everywhere afterwards). -/
theorem claim_flush_idempotent
    {K V T KS : Type} [DecidableEq K] [DecidableEq KS]
    (serK : K → Bytes) (serV : V → Bytes) (serT : T → Bytes) (serKS : KS → Bytes)
    (mL : LookupMap K V) (mI : IndexMap T) (vec : Vector T) (st : LookupSet KS) :
    (LookupMap.flush serK serV (LookupMap.flush serK serV mL).fst).snd = [] ∧
    (IndexMap.flush serT (IndexMap.flush serT mI).fst).snd = [] ∧
    (Vector.flush serT (Vector.flush serT vec).fst).snd = [] ∧
    (LookupSet.flush serKS (LookupSet.flush serKS st).fst).snd = [] ∧
    (((LookupMap.flush serK serV mL).fst.cache.all
        fun q => !q.2.is_modified) = true) ∧
    (((IndexMap.flush serT mI).fst.cache.all
        fun q => !q.2.is_modified) = true) := by
  refine ⟨lookupMap_second_flush_nil serK serV mL,
    indexMap_second_flush_nil serT mI,
    indexMap_second_flush_nil serT vec.values,
    lookupMap_second_flush_nil serKS unitSer st.map, ?_, ?_⟩
  · rw [List.all_eq_true]
    intro q hq
    simp [flushCache_clean mL.cache q hq]
  · rw [List.all_eq_true]
    intro q hq
    simp [flushCache_clean mI.cache q hq]

theorem cacheSet_cacheSet {K A : Type} [DecidableEq K]
    (c : List (K × A)) (k : K) (a b : A) :
    cacheSet (cacheSet c k a) k b = cacheSet c k b := by
  induction c with
  | nil => simp [cacheSet]
  | cons hd tl ih =>
    obtain ⟨k0, a0⟩ := hd
    by_cases h0 : k0 = k
    · simp [cacheSet, h0]
    · simp [cacheSet, h0, ih]

theorem mem_cacheSet {K A : Type} [DecidableEq K]
    (c : List (K × A)) (k : K) (a : A) (q : K × A) (h : q ∈ cacheSet c k a) :
    q = (k, a) ∨ q ∈ c := by
  induction c with
  | nil => simpa [cacheSet] using h
  | cons hd tl ih =>
    obtain ⟨k0, a0⟩ := hd
    by_cases h0 : k0 = k
    · simp only [cacheSet, if_pos h0, List.mem_cons] at h
      rcases h with h | h
      · exact Or.inl h
      · exact Or.inr (List.mem_cons_of_mem _ h)
    · simp only [cacheSet, if_neg h0, List.mem_cons] at h
      rcases h with h | h
      · exact Or.inr (by simp [h])
      · rcases ih h with h | h
        · exact Or.inl h
        · exact Or.inr (List.mem_cons_of_mem _ h)

theorem cacheFind_none_not_mem {K A : Type} [DecidableEq K]
    (c : List (K × A)) (k : K) (a : A) (h : cacheFind c k = none) :
    (k, a) ∉ c := by
  induction c with
  | nil => simp
  | cons hd tl ih =>
    obtain ⟨k0, a0⟩ := hd
    by_cases h0 : k0 = k
    · simp [cacheFind, h0] at h
    · simp only [cacheFind, if_neg h0] at h
      intro hmem
      rcases List.mem_cons.mp hmem with hq | hq
      · exact h0 (congrArg Prod.fst hq).symm
      · exact ih h hq

theorem to_key_injective {K : Type} (serK : K → Bytes)
    (hinj : Function.Injective serK) (p : Bytes) (k k' : K)
    (h : to_key serK p k = to_key serK p k') : k = k' := by
  exact hinj (List.append_cancel_left h)

/-- Whether any operation in the list targets the given key. -/
def opsTouch (ops : List StoreOp) (t : Bytes) : Bool :=
  ops.any fun op => op.key == t

theorem opsTouch_flushOpsL_false {K V : Type} [DecidableEq K]
    (serK : K → Bytes) (serV : V → Bytes) (p : Bytes) (t : Bytes)
    (c : List (K × CacheEntry V))
    (h : ∀ q ∈ c, q.2.is_modified = true → to_key serK p q.1 ≠ t) :
    opsTouch (flushOpsL serK serV p c) t = false := by
  induction c with
  | nil => rfl
  | cons hd tl ih =>
    obtain ⟨k0, e0⟩ := hd
    have htl := ih (fun q hq => h q (List.mem_cons_of_mem _ hq))
    cases hm : e0.is_modified
    · simpa [flushOpsL, hm] using htl
    · have hk0 : to_key serK p k0 ≠ t := h (k0, e0) (List.mem_cons_self _ _) hm
      cases hv : e0.value with
      | some v =>
        simp only [flushOpsL, hm, if_true, hv]
        simpa [opsTouch, StoreOp.key, hk0] using htl
      | none =>
        simp only [flushOpsL, hm, if_true, hv]
        simpa [opsTouch, StoreOp.key, hk0] using htl

theorem mem_flushOpsL_of_entry {K V : Type} [DecidableEq K]
    (serK : K → Bytes) (serV : V → Bytes) (p : Bytes)
    (c : List (K × CacheEntry V)) (k : K) (e : CacheEntry V)
    (hfind : cacheFind c k = some e) (hmod : e.is_modified = true)
    (hval : e.value = none) :
    StoreOp.remove (to_key serK p k) ∈ flushOpsL serK serV p c := by
  induction c with
  | nil => simp [cacheFind] at hfind
  | cons hd tl ih =>
    obtain ⟨k0, e0⟩ := hd
    by_cases h0 : k0 = k
    · subst h0
      simp only [cacheFind, if_true, eq_self_iff_true] at hfind
      cases hfind
      simp [flushOpsL, hmod, hval]
    · simp only [cacheFind, if_neg h0] at hfind
      have := ih hfind
      cases hm : e0.is_modified
      · simpa [flushOpsL, hm] using this
      · cases hv : e0.value with
        | some v => simp [flushOpsL, hm, hv, this]
        | none => simp [flushOpsL, hm, hv, this]

theorem mem_flushOpsI_of_entry {T : Type}
    (serT : T → Bytes) (p : Bytes)
    (c : List (Nat × CacheEntry T)) (i : Nat) (e : CacheEntry T)
    (hfind : cacheFind c i = some e) (hmod : e.is_modified = true)
    (hval : e.value = none) :
    StoreOp.remove (indexToLookupKey p i) ∈ flushOpsI serT p c := by
  induction c with
  | nil => simp [cacheFind] at hfind
  | cons hd tl ih =>
    obtain ⟨i0, e0⟩ := hd
    by_cases h0 : i0 = i
    · subst h0
      simp only [cacheFind, if_true, eq_self_iff_true] at hfind
      cases hfind
      simp [flushOpsI, hmod, hval]
    · simp only [cacheFind, if_neg h0] at hfind
      have := ih hfind
      cases hm : e0.is_modified
      · simpa [flushOpsI, hm] using this
      · cases hv : e0.value with
        | some v => simp [flushOpsI, hm, hv, this]
        | none => simp [flushOpsI, hm, hv, this]

/-- Injective byte serialization of naturals, used to instantiate witnesses. -/
def serNat : Nat → Bytes := fun n => [n]

/-- Partial inverse of `serNat`. -/
def deserNat : Bytes → Option Nat := fun b =>
  match b with
  | [n] => some n
  | _ => none

theorem serNat_injective : Function.Injective serNat := by
  intro a b h
  simpa [serNat] using h

/-- C3: `CacheEntry::replace` returns the old optional value and marks the
entry Modified when the old or the new value is present, leaving the state
unchanged when both are absent; consequently `LookupMap::remove` on a key
absent from both cache and store yields `None`, leaves the slot `Cached`
(not Modified), and a later flush issues no store operation for that key. -/
theorem claim_replace_and_remove_absent
    {T K V : Type} [DecidableEq K]
    (serK : K → Bytes) (serV : V → Bytes) (deserV : Bytes → Option V)
    (hinj : Function.Injective serK)
    (e : CacheEntry T) (w : Option T)
    (m : LookupMap K V) (k : K) (s : Store)
    (hc : cacheFind m.cache k = none)
    (hs : storeRead s (to_key serK m.pfx k) = none) :
    ((e.replace w).fst = e.value ∧
     (e.replace w).snd.value = w ∧
     ((w.isSome || e.value.isSome) = true →
        (e.replace w).snd.state = EntryState.Modified) ∧
     (w = none → e.value = none → (e.replace w).snd.state = e.state)) ∧
    (LookupMap.remove serK deserV s m k =
       Except.ok (none, ⟨m.pfx, cacheSet m.cache k (CacheEntry.new_cached none)⟩) ∧
     cacheFind (cacheSet m.cache k (CacheEntry.new_cached none)) k =
       some ⟨none, EntryState.Cached⟩ ∧
     opsTouch
       (LookupMap.flush serK serV
         ⟨m.pfx, cacheSet m.cache k (CacheEntry.new_cached none)⟩).snd
       (to_key serK m.pfx k) = false) := by
  refine ⟨⟨rfl, rfl, ?_, ?_⟩, ?_, ?_, ?_⟩
  · intro h
    simp [CacheEntry.replace, h]
  · intro hw he
    simp [CacheEntry.replace, hw, he]
  · simp only [LookupMap.remove, LookupMap.load, hc, hs,
      cacheFind_cacheSet_self, CacheEntry.replace, CacheEntry.new_cached,
      Option.isSome_none, Bool.or_self, if_false, cacheSet_cacheSet]
    rfl
  · rw [cacheFind_cacheSet_self]
    rfl
  · apply opsTouch_flushOpsL_false
    intro q hq hqmod
    rcases mem_cacheSet _ _ _ q hq with hq1 | hq1
    · subst hq1
      simp [CacheEntry.new_cached, CacheEntry.is_modified] at hqmod
    · intro ht
      have hk : q.1 = k := to_key_injective serK hinj m.pfx q.1 k ht
      subst hk
      exact cacheFind_none_not_mem m.cache q.1 q.2 hc (by simpa using hq1)

/-- Concrete instance of the C3 theorem: key 5 is absent from both the fresh
map's cache and the empty store. -/
theorem claim_replace_and_remove_absent_witness :
    (LookupMap.remove serNat deserNat [] (LookupMap.new (K := Nat) (V := Nat) [7]) 5 =
       Except.ok (none, ⟨[7], [(5, CacheEntry.new_cached none)]⟩)) ∧
    opsTouch
      (LookupMap.flush serNat serNat
        (⟨[7], [(5, CacheEntry.new_cached none)]⟩ : LookupMap Nat Nat)).snd
      (to_key serNat [7] 5) = false := by
  have h := claim_replace_and_remove_absent (T := Nat) serNat serNat deserNat
    serNat_injective ⟨some 3, EntryState.Cached⟩ none
    (LookupMap.new (K := Nat) (V := Nat) [7]) 5 [] rfl rfl
  exact ⟨h.2.1, h.2.2.2⟩

/-- C10: `set(k, None)` always marks the touched slot Modified, even when the
key is absent from the cache, so a later flush issues a store remove for its
physical key — for `LookupMap` and for `IndexMap` alike — whereas
`LookupMap::remove(k)` on a key absent from both the (fresh) cache and the
store stages nothing and the flush issues no store operation at all. -/
theorem claim_set_none_vs_remove_absent
    {K V T : Type} [DecidableEq K]
    (serK : K → Bytes) (serV : V → Bytes) (deserV : Bytes → Option V)
    (serT : T → Bytes)
    (m : LookupMap K V) (k : K) (hc : cacheFind m.cache k = none)
    (mI : IndexMap T) (i : Nat) (hcI : cacheFind mI.cache i = none)
    (p : Bytes) (k2 : K) (s : Store)
    (hs : storeRead s (to_key serK p k2) = none) :
    StoreOp.remove (to_key serK m.pfx k) ∈
      (LookupMap.flush serK serV (m.set k none)).snd ∧
    StoreOp.remove (indexToLookupKey mI.pfx i) ∈
      (IndexMap.flush serT (mI.set i none)).snd ∧
    LookupMap.remove serK deserV s (LookupMap.new p) k2 =
      Except.ok (none, ⟨p, [(k2, CacheEntry.new_cached none)]⟩) ∧
    (LookupMap.flush serK serV
      (⟨p, [(k2, CacheEntry.new_cached none)]⟩ : LookupMap K V)).snd = [] := by
  refine ⟨?_, ?_, ?_, ?_⟩
  · have hset : (m.set k none).cache = cacheSet m.cache k (CacheEntry.new_modified none) := by
      simp [LookupMap.set, hc]
    have hpfx : (m.set k none).pfx = m.pfx := by
      simp [LookupMap.set, hc]
    show StoreOp.remove (to_key serK m.pfx k) ∈
      flushOpsL serK serV (m.set k none).pfx (m.set k none).cache
    rw [hset, hpfx]
    exact mem_flushOpsL_of_entry serK serV m.pfx _ k (CacheEntry.new_modified none)
      (cacheFind_cacheSet_self _ _ _) rfl rfl
  · have hset : (mI.set i none).cache = cacheSet mI.cache i (CacheEntry.new_modified none) := by
      simp [IndexMap.set, hcI]
    have hpfx : (mI.set i none).pfx = mI.pfx := by
      simp [IndexMap.set, hcI]
    show StoreOp.remove (indexToLookupKey mI.pfx i) ∈
      flushOpsI serT (mI.set i none).pfx (mI.set i none).cache
    rw [hset, hpfx]
    exact mem_flushOpsI_of_entry serT mI.pfx _ i (CacheEntry.new_modified none)
      (cacheFind_cacheSet_self _ _ _) rfl rfl
  · simp only [LookupMap.remove, LookupMap.load, LookupMap.new, cacheFind, hs,
      cacheSet, cacheFind_cacheSet_self, CacheEntry.replace, CacheEntry.new_cached,
      Option.isSome_none, Bool.or_self, if_false]
    rfl
  · rfl

/-- Concrete instance of the C10 theorem: a fresh `LookupMap` and a fresh
`IndexMap` (key 5, index 3 absent from cache), and key 6 absent from the
empty store. -/
theorem claim_set_none_vs_remove_absent_witness :
    StoreOp.remove (to_key serNat [7] 5) ∈
      (LookupMap.flush serNat serNat
        ((LookupMap.new (K := Nat) (V := Nat) [7]).set 5 none)).snd ∧
    StoreOp.remove (indexToLookupKey [9] 3) ∈
      (IndexMap.flush serNat ((IndexMap.new (T := Nat) [9]).set 3 none)).snd ∧
    (LookupMap.flush serNat serNat
      (⟨[8], [(6, CacheEntry.new_cached none)]⟩ : LookupMap Nat Nat)).snd = [] := by
  have h := claim_set_none_vs_remove_absent serNat serNat deserNat serNat
    (LookupMap.new (K := Nat) (V := Nat) [7]) 5 rfl
    (IndexMap.new (T := Nat) [9]) 3 rfl
    [8] 6 [] rfl
  exact ⟨h.1, h.2.1, h.2.2.2⟩

/-- C7: for every index at or beyond the length, `Vector::set` and
`Vector::swap_remove` fail fatally with `IndexOutOfBounds` before staging any
mutation (the error carries no successor state), while `Vector::get` and
`Vector::get_mut` return absence together with the unchanged vector. -/
theorem claim_vector_out_of_bounds {T : Type} (deserT : Bytes → Option T)
    (s : Store) (v : Vector T) (i : Nat) (x : T) (h : v.len ≤ i) :
    Vector.set v i x = Except.error PanicErr.indexOutOfBounds ∧
    Vector.swap_remove deserT s v i = Except.error PanicErr.indexOutOfBounds ∧
    Vector.get deserT s v i = Except.ok (none, v) ∧
    Vector.get_mut deserT s v i = Except.ok (none, v) := by
  refine ⟨?_, ?_, ?_, ?_⟩
  · simp [Vector.set, h]
  · simp [Vector.swap_remove, h]
  · simp [Vector.get, h]
  · simp [Vector.get_mut, h]

/-- Concrete instance of the C7 theorem: an empty vector and index 0. -/
theorem claim_vector_out_of_bounds_witness :
    Vector.set (Vector.new (T := Nat) [0]) 0 7 =
      Except.error PanicErr.indexOutOfBounds ∧
    Vector.swap_remove deserNat [] (Vector.new (T := Nat) [0]) 0 =
      Except.error PanicErr.indexOutOfBounds ∧
    Vector.get deserNat [] (Vector.new (T := Nat) [0]) 0 =
      Except.ok (none, Vector.new (T := Nat) [0]) ∧
    Vector.get_mut deserNat [] (Vector.new (T := Nat) [0]) 0 =
      Except.ok (none, Vector.new (T := Nat) [0]) :=
  claim_vector_out_of_bounds deserNat [] (Vector.new [0]) 0 7 (by decide)

/-- C9 counterexample: acquiring a mutable handle through
`IndexMap::get_mut` without writing anything through it already marks the
slot Modified — here `get_mut(0)` on a fresh map over the empty store
returns no value, yet the following flush issues a store remove, refuting
the claim that mere acquisition does not cause the slot to be flushed. -/
theorem claim_getmut_lazy_counterexample :
    IndexMap.get_mut deserNat [] (IndexMap.new (T := Nat) [9]) 0 =
      Except.ok (none, ⟨[9], [(0, ⟨none, EntryState.Modified⟩)]⟩) ∧
    (IndexMap.flush serNat
      (⟨[9], [(0, ⟨none, EntryState.Modified⟩)]⟩ : IndexMap Nat)).snd =
      [StoreOp.remove (indexToLookupKey [9] 0)] := by
  exact ⟨rfl, rfl⟩

/-- C9 (amended): `IndexMap::get_mut` performs the same lazy slot
initialization as `get` and yields the same value, but marks the slot
Modified already upon acquisition of the mutable handle (through
`value_mut`), even when nothing is written through it. -/
theorem claim_getmut_marks_modified {T : Type} (deserT : Bytes → Option T)
    (s : Store) (m : IndexMap T) (i : Nat) :
    ((IndexMap.get_mut deserT s m i).map Prod.fst =
      (IndexMap.get deserT s m i).map Prod.fst) ∧
    (∀ o m', IndexMap.get_mut deserT s m i = Except.ok (o, m') →
      cacheFind m'.cache i = some ⟨o, EntryState.Modified⟩) := by
  constructor
  · cases hld : IndexMap.load deserT s m i with
    | error e => simp [IndexMap.get_mut, IndexMap.get, hld]
    | ok m1 =>
      cases hf : cacheFind m1.cache i with
      | none => simp [IndexMap.get_mut, IndexMap.get, hld, hf]
      | some e =>
        simp only [IndexMap.get_mut, IndexMap.get, hld, hf]
        rfl
  · intro o m' h
    cases hld : IndexMap.load deserT s m i with
    | error e =>
      simp [IndexMap.get_mut, hld] at h
    | ok m1 =>
      simp only [IndexMap.get_mut, hld] at h
      cases hf : cacheFind m1.cache i with
      | none =>
        simp [hf] at h
      | some e =>
        simp only [hf, Except.ok.injEq, Prod.mk.injEq] at h
        obtain ⟨ho, hm'⟩ := h
        subst ho
        subst hm'
        simpa [CacheEntry.mark_modified] using
          cacheFind_cacheSet_self m1.cache i e.mark_modified

/-- Concrete instance of the amended C9 theorem: `get_mut(0)` on a fresh
map over the empty store leaves slot 0 Modified. -/
theorem claim_getmut_marks_modified_witness :
    cacheFind
      (⟨[9], [(0, ⟨none, EntryState.Modified⟩)]⟩ : IndexMap Nat).cache 0 =
      some ⟨none, EntryState.Modified⟩ :=
  (claim_getmut_marks_modified deserNat [] (IndexMap.new (T := Nat) [9]) 0).2
    none ⟨[9], [(0, ⟨none, EntryState.Modified⟩)]⟩ rfl

/-- C8 counterexample: flushing a vector of length 5 whose segment cache is
empty (exactly the state obtained by deserializing a persisted vector)
over the empty store issues no operation and leaves the store empty — no
record of the length is written, refuting the claim that `Vector::flush`
persists the length. -/
theorem claim_vector_flush_persists_len_counterexample :
    (Vector.flush serNat (⟨5, IndexMap.new [0]⟩ : Vector Nat)).snd = [] ∧
    applyOps [] (Vector.flush serNat (⟨5, IndexMap.new [0]⟩ : Vector Nat)).snd = [] := by
  decide

/-- C8 (amended): `Vector::flush` only delegates to the underlying segment's
flush, leaving the length untouched (the length reaches the store only via
Borsh serialization of the `Vector` struct itself, not via flush: flushing
any vector whose segment cache is empty issues no operation regardless of
its length); teardown (`Drop`) performs exactly this flush. -/
theorem claim_vector_flush_delegates {T : Type} (serT : T → Bytes)
    (v : Vector T) (n : Nat) (p : Bytes) :
    Vector.flush serT v =
      (⟨v.len, (IndexMap.flush serT v.values).fst⟩,
        (IndexMap.flush serT v.values).snd) ∧
    (Vector.flush serT v).fst.len = v.len ∧
    Vector.teardown serT v = Vector.flush serT v ∧
    (Vector.flush serT (⟨n, IndexMap.new p⟩ : Vector T)).snd = [] :=
  ⟨rfl, rfl, rfl, rfl⟩

theorem IndexMap.get_cached {T : Type} (deserT : Bytes → Option T) (s : Store)
    (m : IndexMap T) (i : Nat) (e : CacheEntry T)
    (h : cacheFind m.cache i = some e) :
    IndexMap.get deserT s m i = Except.ok (e.value, m) := by
  simp [IndexMap.get, IndexMap.load, h]

theorem IndexMap.set_pfx {T : Type} (m : IndexMap T) (i : Nat) (v : Option T) :
    (m.set i v).pfx = m.pfx := by
  cases hf : cacheFind m.cache i <;> simp [IndexMap.set, hf]

theorem cacheFind_set_self {T : Type} (m : IndexMap T) (i : Nat) (v : Option T) :
    cacheFind (m.set i v).cache i = some ⟨v, EntryState.Modified⟩ := by
  cases hf : cacheFind m.cache i <;>
    simp [IndexMap.set, hf, cacheFind_cacheSet_self, CacheEntry.new_modified]

theorem cacheFind_set_ne {T : Type} (m : IndexMap T) (i j : Nat) (v : Option T)
    (h : j ≠ i) : cacheFind (m.set i v).cache j = cacheFind m.cache j := by
  cases hf : cacheFind m.cache i <;>
    simp [IndexMap.set, hf, cacheFind_cacheSet_ne _ _ _ _ h]

/-- C6: `Vector::pop` returns absence on the empty vector and leaves it
unchanged; on a non-empty vector whose last slot caches a present value it
returns that value, decrements the length, and stages a tombstone (an
absent, Modified slot) at the old last index, so that any later read of
that slot — against any store contents — reports absence. -/
theorem claim_vector_pop {T : Type} (deserT : Bytes → Option T) (s : Store)
    (v : Vector T) :
    (v.len = 0 → Vector.pop deserT s v = Except.ok (none, v)) ∧
    (∀ e x, 0 < v.len → cacheFind v.values.cache (v.len - 1) = some e →
       e.value = some x →
       Vector.pop deserT s v =
         Except.ok (some x, ⟨v.len - 1, v.values.set (v.len - 1) none⟩) ∧
       cacheFind (v.values.set (v.len - 1) none).cache (v.len - 1) =
         some ⟨none, EntryState.Modified⟩ ∧
       (∀ s2, IndexMap.get deserT s2 (v.values.set (v.len - 1) none) (v.len - 1) =
          Except.ok (none, v.values.set (v.len - 1) none))) := by
  constructor
  · intro h
    simp [Vector.pop, h]
  · intro e x hlen hfind hval
    have hne : ¬ v.len = 0 := by omega
    refine ⟨?_, cacheFind_set_self v.values (v.len - 1) none, ?_⟩
    · simp [Vector.pop, hne,
        IndexMap.get_cached deserT s v.values (v.len - 1) e hfind, hval]
    · intro s2
      exact IndexMap.get_cached deserT s2 _ (v.len - 1) ⟨none, EntryState.Modified⟩
        (cacheFind_set_self v.values (v.len - 1) none)

/-- Concrete instance of the C6 theorem: popping a one-element vector. -/
theorem claim_vector_pop_witness :
    Vector.pop deserNat []
      (⟨1, ⟨[0], [(0, ⟨some 10, EntryState.Modified⟩)]⟩⟩ : Vector Nat) =
      Except.ok (some 10,
        ⟨0, IndexMap.set ⟨[0], [(0, ⟨some 10, EntryState.Modified⟩)]⟩ 0 none⟩) ∧
    cacheFind
      (IndexMap.set ⟨[0], [(0, ⟨some 10, EntryState.Modified⟩)]⟩ 0 none).cache 0 =
      some ⟨none, EntryState.Modified⟩ ∧
    IndexMap.get deserNat []
      (IndexMap.set ⟨[0], [(0, ⟨some 10, EntryState.Modified⟩)]⟩ 0 none) 0 =
      Except.ok (none,
        IndexMap.set ⟨[0], [(0, ⟨some 10, EntryState.Modified⟩)]⟩ 0 none) := by
  have h := (claim_vector_pop deserNat []
    (⟨1, ⟨[0], [(0, ⟨some 10, EntryState.Modified⟩)]⟩⟩ : Vector Nat)).2
    ⟨some 10, EntryState.Modified⟩ 10 (by decide) rfl rfl
  exact ⟨h.1, h.2.1, h.2.2 []⟩

/-- The vector `[10, 20, 30, 40]` as produced by four pushes on a fresh
vector over the empty store. -/
def vecABCD : Vector Nat :=
  ⟨4, ⟨[0], [(0, ⟨some 10, EntryState.Modified⟩), (1, ⟨some 20, EntryState.Modified⟩),
             (2, ⟨some 30, EntryState.Modified⟩), (3, ⟨some 40, EntryState.Modified⟩)]⟩⟩

/-- The vector `[10, 40, 30]` (slot 3 tombstoned) left by `swap_remove(1)`
on `vecABCD`. -/
def vecACD : Vector Nat :=
  ⟨3, ⟨[0], [(0, ⟨some 10, EntryState.Modified⟩), (1, ⟨some 40, EntryState.Modified⟩),
             (2, ⟨some 30, EntryState.Modified⟩), (3, ⟨none, EntryState.Modified⟩)]⟩⟩

/-- C4: `Vector::swap_remove(i)` fails fatally with `IndexOutOfBounds` when
`i >= len`; at the last index it behaves like `pop`; at an interior index it
returns the element previously at `i`, overwrites slot `i` with the previous
last element's value, tombstones the last slot and decrements the length.
On `[10,20,30,40]`, `swap_remove(1)` returns 20 and leaves `[10,40,30]` with
length 3. -/
theorem claim_vector_swap_remove {T : Type} (deserT : Bytes → Option T)
    (s : Store) (v : Vector T) (i : Nat) :
    (v.len ≤ i →
      Vector.swap_remove deserT s v i = Except.error PanicErr.indexOutOfBounds) ∧
    (0 < v.len → v.len - 1 = i →
      Vector.swap_remove deserT s v i =
        match Vector.pop deserT s v with
        | Except.error e => Except.error e
        | Except.ok (some x, v1) => Except.ok (x, v1)
        | Except.ok (none, _) => Except.error PanicErr.abortCalled) ∧
    (∀ ei el x, i + 1 < v.len →
      cacheFind v.values.cache i = some ei → ei.value = some x →
      cacheFind v.values.cache (v.len - 1) = some el →
      Vector.swap_remove deserT s v i =
        Except.ok (x, ⟨v.len - 1, (v.values.set (v.len - 1) none).set i el.value⟩) ∧
      cacheFind ((v.values.set (v.len - 1) none).set i el.value).cache i =
        some ⟨el.value, EntryState.Modified⟩ ∧
      cacheFind ((v.values.set (v.len - 1) none).set i el.value).cache (v.len - 1) =
        some ⟨none, EntryState.Modified⟩) ∧
    (Vector.runOps deserNat []
        [VecOp.pushOp 10, VecOp.pushOp 20, VecOp.pushOp 30, VecOp.pushOp 40]
        (Vector.new [0]) = Except.ok vecABCD ∧
     Vector.swap_remove deserNat [] vecABCD 1 = Except.ok (20, vecACD) ∧
     vecACD.len = 3 ∧
     Vector.get deserNat [] vecACD 0 = Except.ok (some 10, vecACD) ∧
     Vector.get deserNat [] vecACD 1 = Except.ok (some 40, vecACD) ∧
     Vector.get deserNat [] vecACD 2 = Except.ok (some 30, vecACD) ∧
     Vector.get deserNat [] vecACD 3 = Except.ok (none, vecACD)) := by
  refine ⟨?_, ?_, ?_, rfl, rfl, rfl, rfl, rfl, rfl, rfl⟩
  · intro h
    simp [Vector.swap_remove, h]
  · intro h0 h1
    have hle : ¬ v.len ≤ i := by omega
    simp [Vector.swap_remove, hle, h1]
  · intro ei el x h1 hfi hx hfl
    have hle : ¬ v.len ≤ i := by omega
    have hne : ¬ (v.len - 1 = i) := by omega
    have hne0 : ¬ (v.len = 0) := by omega
    refine ⟨?_, cacheFind_set_self _ i el.value, ?_⟩
    · simp [Vector.swap_remove, hle, hne, Vector.pop, hne0,
        IndexMap.get_cached deserT s v.values i ei hfi, hx,
        IndexMap.get_cached deserT s v.values (v.len - 1) el hfl]
    · rw [cacheFind_set_ne _ i (v.len - 1) el.value hne]
      exact cacheFind_set_self v.values (v.len - 1) none

/-- Concrete instance of the C4 theorem: out-of-bounds index 5 on a
four-element vector, and the interior removal at index 1. -/
theorem claim_vector_swap_remove_witness :
    Vector.swap_remove deserNat [] vecABCD 5 =
      Except.error PanicErr.indexOutOfBounds ∧
    Vector.swap_remove deserNat [] vecABCD 1 =
      Except.ok (20, ⟨3, (vecABCD.values.set 3 none).set 1 (some 40)⟩) := by
  refine ⟨(claim_vector_swap_remove deserNat [] vecABCD 5).1 (by decide), ?_⟩
  have h := (claim_vector_swap_remove deserNat [] vecABCD 1).2.2.1
    ⟨some 20, EntryState.Modified⟩ ⟨some 40, EntryState.Modified⟩ 20
    (by decide) rfl rfl rfl
  exact h.1

theorem slotPresent_of_find {T : Type} (v : Vector T) (i : Nat)
    (e : CacheEntry T) (x : T) (hf : cacheFind v.values.cache i = some e)
    (hx : e.value = some x) : slotPresent v i = true := by
  simp [slotPresent, hf, hx]

theorem find_of_slotPresent {T : Type} (v : Vector T) (i : Nat)
    (h : slotPresent v i = true) :
    ∃ e x, cacheFind v.values.cache i = some e ∧ e.value = some x := by
  unfold slotPresent at h
  cases hf : cacheFind v.values.cache i with
  | none => rw [hf] at h; cases h
  | some e =>
    rw [hf] at h
    obtain ⟨x, hx⟩ := Option.isSome_iff_exists.mp h
    exact ⟨e, x, rfl, hx⟩

theorem push_ok {T : Type} (v : Vector T) (x : T) (v' : Vector T)
    (h : Vector.push v x = Except.ok v') :
    v' = ⟨v.len + 1, v.values.set v.len (some x)⟩ := by
  unfold Vector.push Vector.set at h
  by_cases hmax : v.len = u32Max
  · simp [hmax] at h
  · have hlt : ¬ (v.len + 1 ≤ v.len) := by omega
    simp only [hmax, if_false, hlt, if_neg] at h
    exact (Except.ok.injEq _ _ ▸ congrArg id h).symm

theorem push_inv {T : Type} (v : Vector T) (x : T) (v' : Vector T)
    (hinv : VecInv v) (h : Vector.push v x = Except.ok v') :
    v'.values.pfx = v.values.pfx ∧ VecInv v' := by
  obtain rfl := push_ok v x v' h
  refine ⟨IndexMap.set_pfx v.values v.len (some x), ?_⟩
  intro i hi
  by_cases hie : i = v.len
  · subst hie
    exact slotPresent_of_find _ v.len ⟨some x, EntryState.Modified⟩ x
      (cacheFind_set_self v.values v.len (some x)) rfl
  · have hi2 : i < v.len := by
      simp only at hi
      omega
    obtain ⟨e, y, hf, hy⟩ := find_of_slotPresent v i (hinv i hi2)
    exact slotPresent_of_find _ i e y
      ((cacheFind_set_ne v.values v.len i (some x) hie).trans hf) hy

theorem pop_ok_of_inv {T : Type} (deserT : Bytes → Option T) (s : Store)
    (v : Vector T) (hinv : VecInv v) (hlen : 0 < v.len) :
    ∃ x, Vector.pop deserT s v =
      Except.ok (some x, ⟨v.len - 1, v.values.set (v.len - 1) none⟩) := by
  obtain ⟨e, x, hf, hx⟩ := find_of_slotPresent v (v.len - 1)
    (hinv (v.len - 1) (by omega))
  have hne : ¬ (v.len = 0) := by omega
  exact ⟨x, by
    simp [Vector.pop, hne, IndexMap.get_cached deserT s v.values (v.len - 1) e hf, hx]⟩

theorem pop_inv {T : Type} (deserT : Bytes → Option T) (s : Store)
    (v : Vector T) (o : Option T) (v' : Vector T) (hinv : VecInv v)
    (h : Vector.pop deserT s v = Except.ok (o, v')) :
    v'.values.pfx = v.values.pfx ∧ VecInv v' := by
  by_cases h0 : v.len = 0
  · simp only [Vector.pop, h0, if_true, eq_self_iff_true, Except.ok.injEq,
      Prod.mk.injEq] at h
    obtain ⟨-, rfl⟩ := h
    exact ⟨rfl, hinv⟩
  · obtain ⟨x, hpop⟩ := pop_ok_of_inv deserT s v hinv (by omega)
    rw [hpop] at h
    simp only [Except.ok.injEq, Prod.mk.injEq] at h
    obtain ⟨-, rfl⟩ := h
    refine ⟨IndexMap.set_pfx v.values (v.len - 1) none, ?_⟩
    intro i hi
    simp only at hi
    obtain ⟨e, y, hf, hy⟩ := find_of_slotPresent v i (hinv i (by omega))
    exact slotPresent_of_find _ i e y
      ((cacheFind_set_ne v.values (v.len - 1) i none (by omega)).trans hf) hy

theorem swap_remove_inv {T : Type} (deserT : Bytes → Option T) (s : Store)
    (v : Vector T) (i : Nat) (x : T) (v' : Vector T) (hinv : VecInv v)
    (h : Vector.swap_remove deserT s v i = Except.ok (x, v')) :
    v'.values.pfx = v.values.pfx ∧ VecInv v' := by
  by_cases hle : v.len ≤ i
  · simp [Vector.swap_remove, hle] at h
  · by_cases hlast : v.len - 1 = i
    · subst hlast
      obtain ⟨y, hpop⟩ := pop_ok_of_inv deserT s v hinv (by omega)
      simp only [Vector.swap_remove, hle, if_false, if_true,
        eq_self_iff_true, hpop] at h
      simp only [Except.ok.injEq, Prod.mk.injEq] at h
      obtain ⟨-, rfl⟩ := h
      refine ⟨IndexMap.set_pfx v.values (v.len - 1) none, ?_⟩
      intro j hj
      simp only at hj
      obtain ⟨e, z, hf, hz⟩ := find_of_slotPresent v j (hinv j (by omega))
      exact slotPresent_of_find _ j e z
        ((cacheFind_set_ne v.values (v.len - 1) j none (by omega)).trans hf) hz
    · obtain ⟨ei, xi, hfi, hxi⟩ := find_of_slotPresent v i (hinv i (by omega))
      obtain ⟨el, xl, hfl, hxl⟩ := find_of_slotPresent v (v.len - 1)
        (hinv (v.len - 1) (by omega))
      have hne0 : ¬ (v.len = 0) := by omega
      simp only [Vector.swap_remove, hle, if_false, hlast,
        IndexMap.get_cached deserT s v.values i ei hfi, hxi, Vector.pop, hne0,
        IndexMap.get_cached deserT s v.values (v.len - 1) el hfl,
        Except.ok.injEq, Prod.mk.injEq] at h
      obtain ⟨-, rfl⟩ := h
      constructor
      · rw [IndexMap.set_pfx, IndexMap.set_pfx]
      · intro j hj
        simp only at hj
        by_cases hji : j = i
        · subst hji
          refine slotPresent_of_find _ j ⟨el.value, EntryState.Modified⟩ xl
            (cacheFind_set_self _ j el.value) hxl
        · obtain ⟨e, z, hf, hz⟩ := find_of_slotPresent v j (hinv j (by omega))
          refine slotPresent_of_find _ j e z ?_ hz
          rw [cacheFind_set_ne _ i j el.value hji,
            cacheFind_set_ne v.values (v.len - 1) j none (by omega)]
          exact hf

theorem runOp_inv {T : Type} (deserT : Bytes → Option T) (s : Store)
    (v v' : Vector T) (op : VecOp T) (hinv : VecInv v)
    (h : Vector.runOp deserT s v op = Except.ok v') :
    v'.values.pfx = v.values.pfx ∧ VecInv v' := by
  cases op with
  | pushOp x =>
    exact push_inv v x v' hinv h
  | popOp =>
    simp only [Vector.runOp] at h
    cases hpop : Vector.pop deserT s v with
    | error e => rw [hpop] at h; cases h
    | ok r =>
      rw [hpop] at h
      simp only [Except.ok.injEq] at h
      subst h
      exact pop_inv deserT s v r.fst r.snd hinv hpop
  | swapRemoveOp i =>
    simp only [Vector.runOp] at h
    cases hsw : Vector.swap_remove deserT s v i with
    | error e => rw [hsw] at h; cases h
    | ok r =>
      rw [hsw] at h
      simp only [Except.ok.injEq] at h
      subst h
      exact swap_remove_inv deserT s v i r.fst r.snd hinv hsw

theorem runOps_inv {T : Type} (deserT : Bytes → Option T) (s : Store)
    (ops : List (VecOp T)) (v v' : Vector T) (hinv : VecInv v)
    (h : Vector.runOps deserT s ops v = Except.ok v') :
    v'.values.pfx = v.values.pfx ∧ VecInv v' := by
  induction ops generalizing v with
  | nil =>
    simp only [Vector.runOps, Except.ok.injEq] at h
    subst h
    exact ⟨rfl, hinv⟩
  | cons op rest ih =>
    simp only [Vector.runOps] at h
    cases hop : Vector.runOp deserT s v op with
    | error e => rw [hop] at h; cases h
    | ok v1 =>
      rw [hop] at h
      have h1 := runOp_inv deserT s v v1 op hinv hop
      obtain ⟨ha, hb⟩ := ih v1 h1.2 h
      exact ⟨ha.trans h1.1, hb⟩

/-- The vector left by `push 10; push 20; pop` on a fresh vector over the
empty store: length 1, slot 1 tombstoned. -/
def vecPopDemo : Vector Nat :=
  ⟨1, ⟨[0], [(0, ⟨some 10, EntryState.Modified⟩), (1, ⟨none, EntryState.Modified⟩)]⟩⟩

/-- C5: after any successful sequence of push, pop and swap_remove
operations starting from an empty vector over a store holding no data under
its prefix, `get(i)` returns a present value exactly when `i < len`. -/
theorem claim_vector_get_present_iff {T : Type} (deserT : Bytes → Option T)
    (s : Store) (p : Bytes) (ops : List (VecOp T)) (v : Vector T)
    (hs : storeEmptyUnder s p)
    (hrun : Vector.runOps deserT s ops (Vector.new p) = Except.ok v) :
    ∀ i, (∃ x v2, Vector.get deserT s v i = Except.ok (some x, v2)) ↔ i < v.len := by
  have hinv0 : VecInv (Vector.new (T := T) p) := by
    intro i hi
    simp [Vector.new] at hi
  obtain ⟨hp, hinv⟩ := runOps_inv deserT s ops _ v hinv0 hrun
  intro i
  constructor
  · rintro ⟨x, v2, hget⟩
    by_contra hnot
    have hle : v.len ≤ i := by omega
    simp [Vector.get, hle] at hget
  · intro hi
    obtain ⟨e, x, hf, hx⟩ := find_of_slotPresent v i (hinv i hi)
    have hle : ¬ (v.len ≤ i) := by omega
    refine ⟨x, ⟨v.len, v.values⟩, ?_⟩
    simp [Vector.get, hle, IndexMap.get_cached deserT s v.values i e hf, hx]

/-- Concrete instance of the C5 theorem, for the sequence
`push 10; push 20; pop` and the indices 0 (below the length) and 1 (at the
length, where the tombstoned slot must not be exposed). -/
theorem claim_vector_get_present_iff_witness :
    ((∃ x v2, Vector.get deserNat [] vecPopDemo 0 = Except.ok (some x, v2)) ↔
      0 < vecPopDemo.len) ∧
    ((∃ x v2, Vector.get deserNat [] vecPopDemo 1 = Except.ok (some x, v2)) ↔
      1 < vecPopDemo.len) := by
  have h := claim_vector_get_present_iff deserNat [] [0]
    [VecOp.pushOp 10, VecOp.pushOp 20, VecOp.popOp] vecPopDemo
    (fun i => rfl) rfl
  exact ⟨h 0, h 1⟩

theorem flushOpsL_key_shape {K V : Type} [DecidableEq K]
    (serK : K → Bytes) (serV : V → Bytes) (p : Bytes)
    (c : List (K × CacheEntry V)) (op : StoreOp)
    (h : op ∈ flushOpsL serK serV p c) :
    ∃ k', k' ∈ c.map Prod.fst ∧ op.key = to_key serK p k' := by
  induction c with
  | nil => simp [flushOpsL] at h
  | cons hd tl ih =>
    obtain ⟨k0, e0⟩ := hd
    cases hm : e0.is_modified
    · simp only [flushOpsL, hm] at h
      obtain ⟨k', hk', hkey⟩ := ih h
      exact ⟨k', by simp [hk'], hkey⟩
    · cases hv : e0.value with
      | some v =>
        simp only [flushOpsL, hm, hv, if_true, List.mem_cons] at h
        rcases h with h | h
        · exact ⟨k0, by simp, by simp [h, StoreOp.key]⟩
        · obtain ⟨k', hk', hkey⟩ := ih h
          exact ⟨k', by simp [hk'], hkey⟩
      | none =>
        simp only [flushOpsL, hm, hv, if_true, List.mem_cons] at h
        rcases h with h | h
        · exact ⟨k0, by simp, by simp [h, StoreOp.key]⟩
        · obtain ⟨k', hk', hkey⟩ := ih h
          exact ⟨k', by simp [hk'], hkey⟩

theorem flush_writes_modified {K V : Type} [DecidableEq K]
    (serK : K → Bytes) (serV : V → Bytes) (p : Bytes)
    (hinj : Function.Injective serK)
    (c : List (K × CacheEntry V)) (s : Store) (k : K) (e : CacheEntry V) (w : V)
    (hnd : (c.map Prod.fst).Nodup)
    (hfind : cacheFind c k = some e) (hmod : e.is_modified = true)
    (hval : e.value = some w) :
    storeRead (applyOps s (flushOpsL serK serV p c)) (to_key serK p k) =
      some (serV w) := by
  induction c generalizing s with
  | nil => simp [cacheFind] at hfind
  | cons hd tl ih =>
    obtain ⟨k0, e0⟩ := hd
    simp only [List.map_cons, List.nodup_cons] at hnd
    by_cases h0 : k0 = k
    · subst h0
      simp only [cacheFind, if_true, eq_self_iff_true, Option.some.injEq] at hfind
      subst hfind
      simp only [flushOpsL, hmod, if_true, hval]
      have hrest : ∀ op ∈ flushOpsL serK serV p tl,
          StoreOp.key op ≠ to_key serK p k0 := by
        intro op hop hkeq
        obtain ⟨k', hk', hkey⟩ := flushOpsL_key_shape serK serV p tl op hop
        rw [hkey] at hkeq
        have : k' = k0 := to_key_injective serK hinj p k' k0 hkeq
        subst this
        exact hnd.1 hk'
      calc storeRead
            (applyOps s (StoreOp.write (to_key serK p k0) (serV w) ::
              flushOpsL serK serV p tl)) (to_key serK p k0)
          = storeRead (applyOps (storeWrite s (to_key serK p k0) (serV w))
              (flushOpsL serK serV p tl)) (to_key serK p k0) := rfl
        _ = storeRead (storeWrite s (to_key serK p k0) (serV w))
              (to_key serK p k0) :=
            storeRead_applyOps_untouched _ _ _ hrest
        _ = some (serV w) := storeRead_storeWrite_self _ _ _
    · simp only [cacheFind, if_neg h0] at hfind
      cases hm0 : e0.is_modified
      · simp only [flushOpsL, hm0]
        exact ih s hnd.2 hfind
      · cases hv0 : e0.value with
        | some v0 =>
          simp only [flushOpsL, hm0, hv0, if_true]
          exact ih (storeWrite s (to_key serK p k0) (serV v0)) hnd.2 hfind
        | none =>
          simp only [flushOpsL, hm0, hv0, if_true]
          exact ih (storeRemove s (to_key serK p k0)) hnd.2 hfind

theorem LookupMap.load_ok {K V : Type} [DecidableEq K]
    (serK : K → Bytes) (deserV : Bytes → Option V) (s : Store)
    (m mL : LookupMap K V) (k : K)
    (h : LookupMap.load serK deserV s m k = Except.ok mL) :
    mL.pfx = m.pfx ∧
    ((m.cache.map Prod.fst).Nodup → (mL.cache.map Prod.fst).Nodup) := by
  cases hc : cacheFind m.cache k with
  | some e =>
    simp only [LookupMap.load, hc, Except.ok.injEq] at h
    subst h
    exact ⟨rfl, fun hh => hh⟩
  | none =>
    simp only [LookupMap.load, hc] at h
    cases hr : storeRead s (to_key serK m.pfx k) with
    | none =>
      simp only [hr, Except.ok.injEq] at h
      subst h
      exact ⟨rfl, fun hh => cacheSet_keys_nodup m.cache k _ hh⟩
    | some bytes =>
      simp only [hr] at h
      cases hd : deserV bytes with
      | none =>
        simp only [hd] at h
        exact absurd h (by simp)
      | some v =>
        simp only [hd, Except.ok.injEq] at h
        subst h
        exact ⟨rfl, fun hh => cacheSet_keys_nodup m.cache k _ hh⟩

theorem LookupMap.insert_ok {K V : Type} [DecidableEq K]
    (serK : K → Bytes) (deserV : Bytes → Option V) (s : Store)
    (m m1 : LookupMap K V) (k : K) (v : V) (old : Option V)
    (h : LookupMap.insert serK deserV s m k v = Except.ok (old, m1)) :
    m1.pfx = m.pfx ∧
    cacheFind m1.cache k = some ⟨some v, EntryState.Modified⟩ ∧
    ((m.cache.map Prod.fst).Nodup → (m1.cache.map Prod.fst).Nodup) := by
  cases hld : LookupMap.load serK deserV s m k with
  | error e => simp [LookupMap.insert, hld] at h
  | ok mL =>
    simp only [LookupMap.insert, hld] at h
    obtain ⟨hpfx, hnd⟩ := LookupMap.load_ok serK deserV s m mL k hld
    cases hf : cacheFind mL.cache k with
    | none => simp [hf] at h
    | some e =>
      simp only [hf, Except.ok.injEq, Prod.mk.injEq] at h
      obtain ⟨-, hm1⟩ := h
      subst hm1
      refine ⟨hpfx, ?_, fun hh => cacheSet_keys_nodup mL.cache k _ (hnd hh)⟩
      have : (e.replace (some v)).snd = ⟨some v, EntryState.Modified⟩ := by
        simp [CacheEntry.replace]
      rw [this]
      exact cacheFind_cacheSet_self mL.cache k _

/-- C1: inserting `(k, v)`, flushing, and then reading `k` through a fresh
`LookupMap` over the resulting store contents and the same prefix yields a
value equal to `v` — given that the key encoding is injective (borsh) and
that deserialization inverts serialization on `v` (borsh round-trip). -/
theorem claim_lookup_map_roundtrip {K V : Type} [DecidableEq K]
    (serK : K → Bytes) (serV : V → Bytes) (deserV : Bytes → Option V)
    (hinj : Function.Injective serK)
    (m : LookupMap K V) (k : K) (v : V) (s : Store) (old : Option V)
    (m1 : LookupMap K V)
    (hnd : (m.cache.map Prod.fst).Nodup)
    (hrt : deserV (serV v) = some v)
    (hins : LookupMap.insert serK deserV s m k v = Except.ok (old, m1)) :
    (LookupMap.get serK deserV
        (applyOps s (LookupMap.flush serK serV m1).snd)
        (LookupMap.new m.pfx) k).map Prod.fst = Except.ok (some v) := by
  obtain ⟨hpfx, hfind, hndp⟩ :=
    LookupMap.insert_ok serK deserV s m m1 k v old hins
  have hread : storeRead
      (applyOps s (flushOpsL serK serV m1.pfx m1.cache)) (to_key serK m1.pfx k) =
      some (serV v) :=
    flush_writes_modified serK serV m1.pfx hinj m1.cache s k
      ⟨some v, EntryState.Modified⟩ v (hndp hnd) hfind rfl rfl
  rw [hpfx] at hread
  show (LookupMap.get serK deserV
      (applyOps s (flushOpsL serK serV m1.pfx m1.cache))
      (LookupMap.new m.pfx) k).map Prod.fst = Except.ok (some v)
  rw [hpfx]
  simp only [LookupMap.get, LookupMap.load, LookupMap.new, cacheFind, hread,
    hrt, cacheFind_cacheSet_self]
  rfl

/-- Concrete instance of the C1 theorem: insert 42 at key 5 into a fresh map
over the empty store, flush, and read key 5 through a fresh instance. -/
theorem claim_lookup_map_roundtrip_witness :
    (LookupMap.get serNat deserNat
        (applyOps []
          (LookupMap.flush serNat serNat
            (⟨[7], [(5, ⟨some 42, EntryState.Modified⟩)]⟩ : LookupMap Nat Nat)).snd)
        (LookupMap.new [7]) 5).map Prod.fst = Except.ok (some 42) :=
  claim_lookup_map_roundtrip serNat serNat deserNat serNat_injective
    (LookupMap.new [7]) 5 42 [] none
    ⟨[7], [(5, ⟨some 42, EntryState.Modified⟩)]⟩
    (by simp [LookupMap.new]) rfl rfl
